import Mathlib

/-!
Shallow embedding of the DeepOnion proof-of-stake kernel (src/src/pos.cpp).

Block times, heights, hashes and modifiers are modelled as natural numbers
(the C++ types are uint32 and uint64 fields plus 256-bit unsigned hashes);
explicit reductions mod powers of two are inserted exactly where the C++
arithmetic wraps.  The double-SHA-256 hash is an abstract function parameter;
its 256-bit output is modelled by reducing the parameter value mod 2 to the 256.
-/

/-- Constant from pos.cpp line 15: minimum age for coin age, one day of seconds. -/
def nStakeMinAge : Nat := 60 * 60 * 24 * 1

/-- Constant from pos.cpp line 16: stake age of full weight, thirty days of seconds. -/
def nStakeMaxAge : Nat := 60 * 60 * 24 * 30

/-- Constant from pos.cpp line 17: time to elapse before a new modifier is computed. -/
def nModifierInterval : Nat := 8 * 60

/-- Modelled from the spec: the modifier interval ratio constant is defined in
pos.h, which is not under src; the spec (section 4.1) fixes its value to 3. -/
def modifierIntervalRatio : Nat := 3

/-- Modelled from the spec: COIN is defined outside src (amount header); the
spec (section 4.1) fixes it to ten to the eighth. -/
def COIN : Nat := 100000000

/-- The fields of CBlockIndex consumed by pos.cpp.  The accessors
GeneratedStakeModifier, IsProofOfStake and GetStakeEntropyBit are defined in
headers not under src; following the spec data model (section 3) they are
modelled as the boolean fields generated, isPoS and entropyBit.  GetBlockTime
returns the nTime field widened to int64, so nTime doubles for both. -/
structure BlockNode where
  nHeight : Nat
  nTime : Nat
  blockHash : Nat
  nFlags : Nat
  nStakeModifier : Nat
  nStakeModifierChecksum : Nat
  hashProofOfStake : Nat
  generated : Bool
  isPoS : Bool
  entropyBit : Bool
  deriving DecidableEq

/-- pos.cpp lines 47-54: kernel time weight, computed in signed 64-bit integers. -/
def GetWeight (nIntervalBeginning nIntervalEnd : Int) : Int :=
  min (nIntervalEnd - nIntervalBeginning - (nStakeMinAge : Int)) ((nStakeMaxAge : Nat) : Int)

/-- pos.cpp lines 57-68: walk back through pprev to the first block that
generated a stake modifier; a backward chain is modelled as a list whose head
is the block itself and whose tail is its ancestors, newest first.  Returns
the pair of the modifier and its generation time, or none on the two error
paths (null index, or no generation found down to genesis). -/
def GetLastStakeModifier : List BlockNode → Option (Nat × Nat)
  | [] => none
  | b :: rest =>
    if b.generated then some (b.nStakeModifier, b.nTime)
    else
      match rest with
      | [] => none
      | _ :: _ => GetLastStakeModifier rest

/-- pos.cpp lines 71-75: duration in seconds of one selection round. -/
def GetStakeModifierSelectionIntervalSection (nSection : Nat) : Nat :=
  nModifierInterval * 63 / (63 + (63 - nSection) * (modifierIntervalRatio - 1))

/-- pos.cpp lines 78-84: total stake modifier selection interval. -/
def GetStakeModifierSelectionInterval : Nat :=
  (List.range 64).foldl (fun acc n => acc + GetStakeModifierSelectionIntervalSection n) 0

/-- Comparator passed to the sort in pos.cpp lines 181-183: strict comparison
of the timestamp components only, modelled by its reflexive closure so that a
stable insertion sort realises a stable sort with respect to it. -/
def candLe : Nat × Nat → Nat × Nat → Prop := fun a b => a.1 ≤ b.1

instance : DecidableRel candLe := fun a b => Nat.decLe a.1 b.1

instance : IsTotal (Nat × Nat) candLe := ⟨fun a b => Nat.le_total a.1 b.1⟩

instance : IsTrans (Nat × Nat) candLe := ⟨fun _ _ _ hab hbc => Nat.le_trans hab hbc⟩

/-- Loop of SelectBlockFromCandidates, pos.cpp lines 96-130.  The accumulator
best carries fSelected, hashBest and pindexSelected at once.  The block index
is the abstract lookup idx and the selection hash of pos.cpp line 112 is the
abstract double-SHA-256 H2 applied to the proof hash and previous modifier,
reduced mod 2 to the 256. -/
def sbcGo (idx : Nat → Option BlockNode) (H2 : Nat → Nat → Nat) (selected : List Nat)
    (stop : Int) (mPrev : Nat) : List (Nat × Nat) → Option (Nat × BlockNode) → Option BlockNode
  | [], best => best.map Prod.snd
  | item :: rest, best =>
    match idx item.2 with
    | none => none
    | some pindex =>
      if best.isSome && decide (stop < (pindex.nTime : Int)) then best.map Prod.snd
      else if pindex.blockHash ∈ selected then sbcGo idx H2 selected stop mPrev rest best
      else
        let hashProof := if pindex.isPoS then pindex.hashProofOfStake else pindex.blockHash
        let h0 := H2 hashProof mPrev % 2 ^ 256
        let hashSelection := if pindex.isPoS then h0 / 2 ^ 32 else h0
        match best with
        | none => sbcGo idx H2 selected stop mPrev rest (some (hashSelection, pindex))
        | some (hb, pb) =>
          if hashSelection < hb then sbcGo idx H2 selected stop mPrev rest (some (hashSelection, pindex))
          else sbcGo idx H2 selected stop mPrev rest (some (hb, pb))

/-- pos.cpp lines 89-133: select one block among the timestamp-sorted
candidates, skipping already selected blocks, stopping once a winner exists
and the candidate timestamp passes nSelectionIntervalStop.  Returns none when
the function returns false (missing index entry or no candidate at all). -/
def SelectBlockFromCandidates (idx : Nat → Option BlockNode) (H2 : Nat → Nat → Nat)
    (selected : List Nat) (stop : Int) (mPrev : Nat) (cands : List (Nat × Nat)) :
    Option BlockNode :=
  sbcGo idx H2 selected stop mPrev cands none

/-- pos.cpp lines 180-183: the candidate vector is reversed and then sorted by
ascending timestamp.  The unstable std sort with a strict timestamp comparator
is modelled as the stable insertion sort with respect to candLe applied to the
reversed vector. -/
def sortCandidatesByTimestamp (l : List (Nat × Nat)) : List (Nat × Nat) :=
  List.insertionSort candLe l.reverse

/-- Round loop of ComputeNextStakeModifier, pos.cpp lines 186-201: remaining
counts the rounds still to run, round is the current round number, stop the
running nSelectionIntervalStop, acc the modifier bits accumulated so far and
selected the hashes of already selected blocks. -/
def computeRounds (idx : Nat → Option BlockNode) (H2 : Nat → Nat → Nat)
    (sorted : List (Nat × Nat)) (mPrev : Nat) :
    Nat → Nat → Int → Nat → List Nat → Option Nat
  | 0, _, _, acc, _ => some acc
  | remaining + 1, round, stop, acc, selected =>
    let stopNext := stop + (GetStakeModifierSelectionIntervalSection round : Int)
    match SelectBlockFromCandidates idx H2 selected stopNext mPrev sorted with
    | none => none
    | some b =>
      computeRounds idx H2 sorted mPrev remaining (round + 1) stopNext
        (acc ||| ((if b.entropyBit then 1 else 0) <<< round)) (b.blockHash :: selected)

/-- pos.cpp lines 148-208: compute the next stake modifier from the backward
chain of the previous block (empty list models a null pindexPrev).  Returns
the pair of the modifier and the fGeneratedStakeModifier flag, or none on the
error paths. -/
def ComputeNextStakeModifier (idx : Nat → Option BlockNode) (H2 : Nat → Nat → Nat) :
    List BlockNode → Option (Nat × Bool)
  | [] => some (0, true)
  | prev :: rest =>
    match GetLastStakeModifier (prev :: rest) with
    | none => none
    | some (sm, tM) =>
      if prev.nTime / nModifierInterval ≤ tM / nModifierInterval then some (sm, false)
      else
        let nSelectionInterval := GetStakeModifierSelectionInterval
        let nSelectionIntervalStart : Int :=
          ((prev.nTime / nModifierInterval) * nModifierInterval : Nat) - (nSelectionInterval : Int)
        let cands :=
          ((prev :: rest).takeWhile (fun b => decide (nSelectionIntervalStart ≤ (b.nTime : Int)))).map
            (fun b => (b.nTime, b.blockHash))
        let sorted := sortCandidatesByTimestamp cands
        match computeRounds idx H2 sorted sm (min 64 sorted.length) 0 nSelectionIntervalStart 0 [] with
        | none => none
        | some modifierNew => some (modifierNew, true)

/-- Result of GetKernelStakeModifier, pos.cpp lines 212-245: ok carries the
modifier together with the height and time out-parameters; errBehind is the
logged error return on line 229 and notAvailable the bare false on line 232. -/
inductive GksmResult where
  | ok (modifier nHeight nTime : Nat)
  | errBehind
  | notAvailable
  deriving DecidableEq

/-- Loop of GetKernelStakeModifier, pos.cpp lines 224-240: cur is the running
pindex, rest the forward chain still ahead of it through pnext, smHeight and
smTime the running nStakeModifierHeight and nStakeModifierTime. -/
def gksmLoop (tTarget : Nat) (now : Int) : BlockNode → List BlockNode → Nat → Nat → GksmResult
  | cur, [], smHeight, smTime =>
    if smTime < tTarget then
      if now < (cur.nTime : Int) + (nStakeMinAge : Int) - (GetStakeModifierSelectionInterval : Int)
        then .errBehind else .notAvailable
    else .ok cur.nStakeModifier smHeight smTime
  | cur, next :: rest, smHeight, smTime =>
    if smTime < tTarget then
      if next.generated then gksmLoop tTarget now next rest next.nHeight next.nTime
      else gksmLoop tTarget now next rest smHeight smTime
    else .ok cur.nStakeModifier smHeight smTime

/-- pos.cpp lines 212-245: find the stake modifier a selection interval later
than the block the coin was generated in.  The forward chain along pnext is
the list forward; now models GetAdjustedTime. -/
def GetKernelStakeModifier (now : Int) (pindexFrom : BlockNode) (forward : List BlockNode) :
    GksmResult :=
  gksmLoop (pindexFrom.nTime + GetStakeModifierSelectionInterval) now
    pindexFrom forward pindexFrom.nHeight pindexFrom.nTime

/-- Modelled from the spec: arith_uint256 SetCompact lives in arith_uint256.h,
not under src; the spec (sections 4.4.2 and 6) fixes it to the
Bitcoin-compatible compact mantissa and exponent expansion, with the left
shift wrapping inside 256 bits. -/
def SetCompact (nCompact : Nat) : Nat :=
  let size := nCompact % 2 ^ 32 / 2 ^ 24
  let word := nCompact % 2 ^ 23
  if size ≤ 3 then word / 2 ^ (8 * (3 - size))
  else word * 2 ^ (8 * (size - 3)) % 2 ^ 256

/-- pos.cpp line 284: the coin day weight.  The prevout value converts int64
to uint64 entering arith_uint256, GetWeight converts int64 to uint32 through
the base_uint operator for multiplication by a 32-bit word (arith_uint256.h is
not under src; this follows the Bitcoin-compatible header the spec points to),
the product wraps inside 256 bits and the divisions truncate. -/
def coinDayWeight (txPrevValue : Int) (txPrevTime nTimeTx : Nat) : Nat :=
  Int.toNat (txPrevValue % (2 : Int) ^ 64) *
      Int.toNat (GetWeight (txPrevTime : Int) (nTimeTx : Int) % (2 : Int) ^ 32) % 2 ^ 256
    / COIN / (24 * 60 * 60)

/-- Result of CheckStakeKernelHash, pos.cpp lines 268-319: the two DoS(100)
rejections on lines 272 and 276, the bare false when the kernel stake modifier
is unavailable (line 296), and the final comparison outcome carrying the
hashProofOfStake and targetProofOfStake out-parameters. -/
inductive KernelOutcome where
  | dosTimeViolation
  | dosMinAge
  | modUnavailable
  | rejected (hashProof target : Nat)
  | accepted (hashProof target : Nat)
  deriving DecidableEq

/-- pos.cpp lines 268-319: the DeepOnion kernel protocol check.  H1 is the
abstract double-SHA-256 over the serialized tuple of the stake modifier, the
time of the block holding the previous transaction, the offset of that
transaction, its time, the prevout index and the spend time (lines 298-300).
The min age comparison on line 275 is 32-bit unsigned arithmetic, hence the
reduction of the sum mod 2 to the 32. -/
def CheckStakeKernelHash (H1 : Nat → Nat → Nat → Nat → Nat → Nat → Nat) (now : Int)
    (nBits : Nat) (pBlockFrom : BlockNode) (forward : List BlockNode)
    (txPrevTime : Nat) (txPrevValue : Int) (nTxPrevOffset prevoutN nTimeTx : Nat) :
    KernelOutcome :=
  if nTimeTx < txPrevTime then .dosTimeViolation
  else if nTimeTx < (pBlockFrom.nTime + nStakeMinAge) % 2 ^ 32 then .dosMinAge
  else
    match GetKernelStakeModifier now pBlockFrom forward with
    | .ok nStakeModifier _ _ =>
      if coinDayWeight txPrevValue txPrevTime nTimeTx * SetCompact nBits % 2 ^ 256 <
          H1 nStakeModifier pBlockFrom.nTime nTxPrevOffset txPrevTime prevoutN nTimeTx % 2 ^ 256
      then
        .rejected (H1 nStakeModifier pBlockFrom.nTime nTxPrevOffset txPrevTime prevoutN nTimeTx % 2 ^ 256)
          (coinDayWeight txPrevValue txPrevTime nTimeTx * SetCompact nBits % 2 ^ 256)
      else
        .accepted (H1 nStakeModifier pBlockFrom.nTime nTxPrevOffset txPrevTime prevoutN nTimeTx % 2 ^ 256)
          (coinDayWeight txPrevValue txPrevTime nTimeTx * SetCompact nBits % 2 ^ 256)
    | _ => .modUnavailable

/-- The fields read from the previous transaction after deserializing it from
the block file in CheckProofOfStake (pos.cpp lines 342-356): the hash of the
enclosing block header, the transaction time and the prevout value. -/
structure PrevTxData where
  headerHash : Nat
  txPrevTime : Nat
  txPrevValue : Int
  deriving DecidableEq

/-- Result of CheckProofOfStake, pos.cpp lines 322-391: one constructor per
DoS(100) rejection site, ok for success, and nullDeref modelling the
dereference of the null pBlockFrom inside CheckStakeKernelHash (pos.cpp line
274) when the header hash was not found in the block index on line 357. -/
inductive PoSResult where
  | dosNotCoinStake
  | dosNoTxIndex
  | dosFileOpen
  | dosDeserialize
  | dosNoCoin
  | dosImmature
  | dosNoAncestor
  | dosKernelFail
  | ok
  | nullDeref
  deriving DecidableEq

/-- pos.cpp lines 322-391: check kernel hash target for the coinstake of a
block.  The database, file and UTXO collaborators are abstracted: readTxIndex
is the transaction index lookup result (the nTxOffset), fileOpenOk the open of
the block file, deser the deserialized previous transaction data, mapBlockIndex
the block index lookup returning a block together with its forward chain, coin
the UTXO entry height, ancestorOk the GetAncestor lookup of line 376.  When
the header hash misses the block index, pBlockFrom stays null (line 357-360)
and CheckStakeKernelHash dereferences it on line 274 right after the time
check of line 271; nullDeref models that undefined behaviour. -/
def CheckProofOfStake (H1 : Nat → Nat → Nat → Nat → Nat → Nat → Nat) (now : Int)
    (nBits : Nat) (isCoinStake : Bool) (txNTime prevoutN : Nat)
    (readTxIndex : Option Nat) (fileOpenOk : Bool) (deser : Option PrevTxData)
    (mapBlockIndex : Nat → Option (BlockNode × List BlockNode))
    (coin : Option Int) (pindexPrevHeight coinbaseMaturity : Int) (ancestorOk : Bool) :
    PoSResult :=
  if !isCoinStake then .dosNotCoinStake
  else
    match readTxIndex with
    | none => .dosNoTxIndex
    | some nTxOffset =>
      if !fileOpenOk then .dosFileOpen
      else
        match deser with
        | none => .dosDeserialize
        | some prevData =>
          let nTxPrevOffset := nTxOffset + 80
          let pBlockFrom := mapBlockIndex prevData.headerHash
          match coin with
          | none => .dosNoCoin
          | some coinHeight =>
            if pindexPrevHeight + 1 - coinHeight < coinbaseMaturity then .dosImmature
            else if !ancestorOk then .dosNoAncestor
            else
              match pBlockFrom with
              | some (bf, fwd) =>
                match CheckStakeKernelHash H1 now nBits bf fwd prevData.txPrevTime
                    prevData.txPrevValue nTxPrevOffset prevoutN txNTime with
                | .accepted _ _ => .ok
                | _ => .dosKernelFail
              | none =>
                if txNTime < prevData.txPrevTime then .dosKernelFail else .nullDeref

/-- pos.cpp lines 394-398: the v0.3 protocol coinstake timestamp rule. -/
def CheckCoinStakeTimestamp (nTimeBlock nTimeTx : Int) : Bool :=
  nTimeBlock == nTimeTx

/-- Little-endian fixed-width serialization of an unsigned integer into
nBytes bytes, the canonical CDataStream encoding of the integer types and of
uint256 (whose 32 raw bytes are the little-endian digits of its value). -/
def serLE (nBytes x : Nat) : List Nat :=
  (List.range nBytes).map (fun i => x / 256 ^ i % 256)

/-- pos.cpp lines 401-412: the stake modifier checksum of a block.  The
stream receives the previous checksum (u32, only when pprev is not null), the
flags (u32), the proof hash (32 bytes) and the modifier (u64); the big-endian
top of the double-SHA-256 is taken by the arithmetic right shift by 224, the
low 64 bits are read by Get64 and the return type truncates to 32 bits. -/
def GetStakeModifierChecksum (H : List Nat → Nat) (pprev : Option BlockNode)
    (pindex : BlockNode) : Nat :=
  let ss :=
    (match pprev with
      | some p => serLE 4 p.nStakeModifierChecksum
      | none => []) ++
    serLE 4 pindex.nFlags ++ serLE 32 pindex.hashProofOfStake ++ serLE 8 pindex.nStakeModifier
  (H ss % 2 ^ 256) >>> (256 - 32) % 2 ^ 64 % 2 ^ 32

/-- The checksum rule as the spec states it (section 4.5): hash the
concatenation of the optional previous checksum as u32 little-endian, the
flags as u32 little-endian, the proof hash as 32 bytes and the modifier as u64
little-endian, then keep the most significant 32 bits of the 256-bit hash
value, truncated to 32 bits. -/
def stakeModifierChecksumSpec (H : List Nat → Nat) (pprev : Option BlockNode)
    (pindex : BlockNode) : Nat :=
  let bytes :=
    (match pprev with
      | some p => serLE 4 p.nStakeModifierChecksum
      | none => []) ++
    serLE 4 pindex.nFlags ++ serLE 32 pindex.hashProofOfStake ++ serLE 8 pindex.nStakeModifier
  H bytes % 2 ^ 256 / 2 ^ 224 % 2 ^ 32

/-- pos.cpp lines 20-38: the hard-coded mainnet stake modifier checkpoints. -/
def mapStakeModifierCheckpoints : List (Nat × Nat) :=
  [(0, 0xfd11f4e7), (1000, 0x353653fe), (10000, 0x8c341084), (50008, 0x9f0053f2),
   (100000, 0xaf212909), (150006, 0x3883af95), (200830, 0xf2daec0a), (250008, 0x76bd1777),
   (300836, 0x18dbac5e), (350003, 0x17223fa8), (400002, 0xd1662b8f), (450000, 0x0fc0c8d3),
   (500001, 0x17ac1811), (550004, 0xcfb3340f), (600014, 0x74d7cf8c), (621306, 0x4890a081)]

/-- pos.cpp lines 41-44: the hard-coded testnet stake modifier checkpoints. -/
def mapStakeModifierCheckpointsTestNet : List (Nat × Nat) :=
  [(0, 0xfd11f4e7)]

/-- The body of CheckStakeModifierCheckpoints abstracted over the table it
consults: when the height is present the checksum must match, otherwise true. -/
def checkpointsCheckWith (table : List (Nat × Nat)) (nHeight nStakeModifierChecksum : Nat) :
    Bool :=
  match table.lookup nHeight with
  | some v => nStakeModifierChecksum == v
  | none => true

/-- pos.cpp lines 415-424: the checkpoint gate; line 418 binds the mainnet
table unconditionally, the testnet table is never consulted. -/
def CheckStakeModifierCheckpoints (nHeight nStakeModifierChecksum : Nat) : Bool :=
  checkpointsCheckWith mapStakeModifierCheckpoints nHeight nStakeModifierChecksum

/-- Reference restatement of GetKernelStakeModifier for the corrected claim
C2: the forward walk stops at the first traversed block that both generated a
stake modifier and has time at least block-from time plus the selection
interval, returning the modifier, height and time of that block; when the
forward chain ends before such a block exists, the retryable error is reported
if and only if the time of the block at which the nil next link was reached
(the local tip), plus the minimum stake age, minus the selection interval,
exceeds the current time, and otherwise the walk reports that the modifier is
not yet available. -/
def gksmSpec (now : Int) (pindexFrom : BlockNode) (forward : List BlockNode) : GksmResult :=
  match forward.find?
      (fun b => b.generated && decide (pindexFrom.nTime + GetStakeModifierSelectionInterval ≤ b.nTime)) with
  | some b => .ok b.nStakeModifier b.nHeight b.nTime
  | none =>
    if now < ((forward.getLastD pindexFrom).nTime : Int) + (nStakeMinAge : Int) -
        (GetStakeModifierSelectionInterval : Int)
    then .errBehind else .notAvailable

/-- The constantly zero abstract kernel hash, used to instantiate theorems at
concrete inputs. -/
def H1zero : Nat → Nat → Nat → Nat → Nat → Nat → Nat := fun _ _ _ _ _ _ => 0

/-- Concrete block for the C1 instantiation: the block holding the staked
coin, at height 0 and time 0, itself a modifier generator. -/
def w1From : BlockNode := ⟨0, 0, 11, 0, 0, 0, 0, true, false, false⟩

/-- Concrete block for the C1 instantiation: the forward successor of w1From,
generating a stake modifier at time 1000000, well past the selection
interval. -/
def w1Next : BlockNode := ⟨1, 1000000, 12, 0, 7, 0, 0, true, false, false⟩

/-- Concrete block for the C2 refutation: the block the staked coin comes
from, at time 2000000. -/
def cexFrom : BlockNode := ⟨5, 2000000, 100, 0, 42, 0, 0, true, false, false⟩

/-- Concrete block for the C2 refutation: the only forward successor of
cexFrom, a modifier generator whose time 0 keeps the tracked modifier time
below the selection target, and which has no next block. -/
def cexTip : BlockNode := ⟨6, 0, 101, 0, 77, 0, 0, true, false, false⟩

/-- Concrete block for the C5 instantiation: a generator block at time 1000
carrying modifier 42. -/
def w5blk : BlockNode := ⟨0, 1000, 5, 0, 42, 0, 0, true, false, false⟩

/-- Concrete proof-of-work block with hash 1 at timestamp 5, used in the C6
refutation. -/
def c6b1 : BlockNode := ⟨0, 5, 1, 0, 0, 0, 0, false, false, false⟩

/-- Concrete proof-of-work block with hash 2 at timestamp 5, used in the C6
refutation. -/
def c6b2 : BlockNode := ⟨0, 5, 2, 0, 0, 0, 0, false, false, true⟩

/-- Concrete block index for the C6 refutation, holding c6b1 and c6b2. -/
def idxC6 : Nat → Option BlockNode := fun h =>
  if h = 1 then some c6b1 else if h = 2 then some c6b2 else none

/-- Concrete selection hash for the C6 refutation: the proof hash itself. -/
def H2C6 : Nat → Nat → Nat := fun a _ => a

/-- Concrete proof-of-stake block for the C7 instantiation. -/
def c7bp : BlockNode := ⟨0, 0, 100, 0, 0, 0, 10, false, true, false⟩

/-- Concrete proof-of-work block for the C7 instantiation. -/
def c7bw : BlockNode := ⟨0, 0, 200, 0, 0, 0, 0, false, false, false⟩

/-- Concrete block index for the C7 instantiation, holding c7bp and c7bw. -/
def idxC7 : Nat → Option BlockNode := fun h =>
  if h = 100 then some c7bp else if h = 200 then some c7bw else none

/-- Concrete selection hash for the C7 instantiation: constantly two to the
32, so both candidates share the same raw hash value. -/
def H2C7 : Nat → Nat → Nat := fun _ _ => 2 ^ 32

/-- Concrete block for the C8 witness: the block the staked coin comes from,
at time 1000000. -/
def w8From : BlockNode := ⟨0, 1000000, 9, 0, 0, 0, 0, true, false, false⟩

/-- Concrete block for the C8 refutation: its time is two to the 32 minus the
minimum stake age, so adding the minimum stake age wraps to zero in 32-bit
unsigned arithmetic. -/
def c8From : BlockNode := ⟨0, 4294880896, 7, 0, 3, 0, 0, true, false, false⟩

/-- Concrete block for the C8 refutation: forward successor of c8From
generating a modifier late enough to make the kernel modifier available. -/
def c8Next : BlockNode := ⟨1, 4294967295, 8, 0, 9, 0, 0, true, false, false⟩

theorem gksmLoop_of_not_lt (tTarget : Nat) (now : Int) (cur : BlockNode)
    (rest : List BlockNode) (smHeight smTime : Nat) (h : ¬ smTime < tTarget) :
    gksmLoop tTarget now cur rest smHeight smTime = .ok cur.nStakeModifier smHeight smTime := by
  cases rest <;> simp [gksmLoop, h]

theorem gksmLoop_eq_find (tTarget : Nat) (now : Int) (rest : List BlockNode) :
    ∀ (cur : BlockNode) (smHeight smTime : Nat), smTime < tTarget →
      gksmLoop tTarget now cur rest smHeight smTime =
        match rest.find? (fun b => b.generated && decide (tTarget ≤ b.nTime)) with
        | some b => .ok b.nStakeModifier b.nHeight b.nTime
        | none =>
          if now < ((rest.getLastD cur).nTime : Int) + (nStakeMinAge : Int) -
              (GetStakeModifierSelectionInterval : Int)
          then .errBehind else .notAvailable := by
  induction rest with
  | nil =>
    intro cur smHeight smTime h
    simp [gksmLoop, h, List.find?]
  | cons next rest ih =>
    intro cur smHeight smTime h
    simp only [gksmLoop, if_pos h]
    by_cases hg : next.generated
    · by_cases ht : tTarget ≤ next.nTime
      · have hfind : (next :: rest).find? (fun b => b.generated && decide (tTarget ≤ b.nTime)) =
            some next := by
          apply List.find?_cons_of_pos
          simp [hg, ht]
        rw [hfind, if_pos hg]
        exact gksmLoop_of_not_lt tTarget now next rest next.nHeight next.nTime (by omega)
      · have hfind : (next :: rest).find? (fun b => b.generated && decide (tTarget ≤ b.nTime)) =
            rest.find? (fun b => b.generated && decide (tTarget ≤ b.nTime)) := by
          apply List.find?_cons_of_neg
          simp [ht]
        rw [hfind, if_pos hg, List.getLastD_cons]
        exact ih next next.nHeight next.nTime (by omega)
    · have hfind : (next :: rest).find? (fun b => b.generated && decide (tTarget ≤ b.nTime)) =
          rest.find? (fun b => b.generated && decide (tTarget ≤ b.nTime)) := by
        apply List.find?_cons_of_neg
        simp [hg]
      rw [hfind, if_neg hg, List.getLastD_cons]
      exact ih next smHeight smTime h

theorem sortedPermNodupKeysEq (l1 : List (Nat × Nat)) :
    ∀ l2 : List (Nat × Nat), l1.Perm l2 → l1.Sorted candLe → l2.Sorted candLe →
      (l1.map Prod.fst).Nodup → l1 = l2 := by
  induction l1 with
  | nil =>
    intro l2 hp _ _ _
    exact hp.nil_eq
  | cons a t1 ih =>
    intro l2 hp hs1 hs2 hnd
    cases l2 with
    | nil => exact absurd hp.eq_nil (by simp)
    | cons b t2 =>
      have hab : a = b := by
        by_contra hne
        have ha2 : a ∈ t2 := by
          rcases List.mem_cons.mp (hp.subset (List.mem_cons_self a t1)) with h | h
          · exact absurd h hne
          · exact h
        have hb1 : b ∈ t1 := by
          rcases List.mem_cons.mp (hp.symm.subset (List.mem_cons_self b t2)) with h | h
          · exact absurd h.symm hne
          · exact h
        have hle1 : a.1 ≤ b.1 := (List.sorted_cons.mp hs1).1 b hb1
        have hle2 : b.1 ≤ a.1 := (List.sorted_cons.mp hs2).1 a ha2
        have hkey : a.1 = b.1 := Nat.le_antisymm hle1 hle2
        have hmem : a.1 ∈ t1.map Prod.fst := by
          rw [hkey]
          exact List.mem_map_of_mem Prod.fst hb1
        simp only [List.map_cons, List.nodup_cons] at hnd
        exact hnd.1 hmem
      subst hab
      have htail := ih t2 hp.cons_inv (List.sorted_cons.mp hs1).2 (List.sorted_cons.mp hs2).2
        (by simp only [List.map_cons, List.nodup_cons] at hnd; exact hnd.2)
      rw [htail]

/-- C1: when the preconditions hold (spend time at least the previous
transaction time, block-from time plus the minimum stake age at most the spend
time, all 32-bit) and the kernel stake modifier is available,
CheckStakeKernelHash returns the accepting outcome if and only if the 256-bit
kernel hash of the modifier, the block-from time, the transaction offset, the
previous transaction time, the prevout index and the spend time is at most the
256-bit product of the coin day weight and the compact-decoded target per coin
day; in particular a hash exactly equal to the target is accepted. -/
theorem checkStakeKernelHash_accept_iff_le_target
    (H1 : Nat → Nat → Nat → Nat → Nat → Nat → Nat) (now : Int) (nBits : Nat)
    (blockFrom : BlockNode) (forward : List BlockNode)
    (txPrevTime : Nat) (txPrevValue : Int) (nTxPrevOffset prevoutN nTimeTx m hgt tm : Nat)
    (hbound : nTimeTx < 2 ^ 32)
    (h1 : txPrevTime ≤ nTimeTx)
    (h2 : blockFrom.nTime + nStakeMinAge ≤ nTimeTx)
    (hmod : GetKernelStakeModifier now blockFrom forward = .ok m hgt tm) :
    (CheckStakeKernelHash H1 now nBits blockFrom forward txPrevTime txPrevValue
        nTxPrevOffset prevoutN nTimeTx =
      .accepted (H1 m blockFrom.nTime nTxPrevOffset txPrevTime prevoutN nTimeTx % 2 ^ 256)
        (coinDayWeight txPrevValue txPrevTime nTimeTx * SetCompact nBits % 2 ^ 256)) ↔
    H1 m blockFrom.nTime nTxPrevOffset txPrevTime prevoutN nTimeTx % 2 ^ 256 ≤
      coinDayWeight txPrevValue txPrevTime nTimeTx * SetCompact nBits % 2 ^ 256 := by
  have hmodeq : (blockFrom.nTime + nStakeMinAge) % 2 ^ 32 = blockFrom.nTime + nStakeMinAge :=
    Nat.mod_eq_of_lt (by omega)
  unfold CheckStakeKernelHash
  rw [if_neg (by omega), hmodeq, if_neg (by omega), hmod]
  dsimp only
  by_cases hc : coinDayWeight txPrevValue txPrevTime nTimeTx * SetCompact nBits % 2 ^ 256 <
      H1 m blockFrom.nTime nTxPrevOffset txPrevTime prevoutN nTimeTx % 2 ^ 256
  · rw [if_pos hc]
    constructor
    · intro heq
      exact absurd heq (by simp)
    · intro hle
      omega
  · rw [if_neg hc]
    constructor
    · intro _
      omega
    · intro _
      rfl

/-- C1 witness: the theorem instantiated at the concrete block w1From with
forward chain w1Next, zero hash, zero bits, previous transaction time 0 and
spend time exactly one day later. -/
theorem checkStakeKernelHash_accept_iff_le_target_witness :
    (CheckStakeKernelHash H1zero 0 0 w1From [w1Next] 0 1 0 0 86400 =
      .accepted (H1zero 7 w1From.nTime 0 0 0 86400 % 2 ^ 256)
        (coinDayWeight 1 0 86400 * SetCompact 0 % 2 ^ 256)) ↔
    H1zero 7 w1From.nTime 0 0 0 86400 % 2 ^ 256 ≤
      coinDayWeight 1 0 86400 * SetCompact 0 % 2 ^ 256 :=
  checkStakeKernelHash_accept_iff_le_target H1zero 0 0 w1From [w1Next] 0 1 0 0 86400
    7 1 1000000 (by decide) (by decide) (by decide) (by decide)

/-- C2 counterexample: a concrete chain on which the forward walk of
GetKernelStakeModifier reaches a block with nil next before any block of time
at least block-from time plus the selection interval, the condition the claim
gives for a retryable error holds (block-from time plus the minimum stake age
minus the selection interval exceeds now), and yet the code reports the
non-fatal not-yet-available result, because it tests the time of the local tip
instead of the time of the block the coin came from. -/
theorem getKernelStakeModifier_claimed_error_rule_false :
    GetKernelStakeModifier 500000 cexFrom [cexTip] = .notAvailable ∧
    (cexFrom.nTime : Int) + (nStakeMinAge : Int) - (GetStakeModifierSelectionInterval : Int) >
      500000 ∧
    cexTip.nTime < cexFrom.nTime + GetStakeModifierSelectionInterval := by
  refine ⟨by decide, by decide, by decide⟩

/-- C2 amended: GetKernelStakeModifier walks forward via next and stops at the
first traversed block that generated a stake modifier and whose time is at
least block-from time plus the selection interval, returning that block's
modifier, height and time; when it reaches a block with nil next before that
point, it reports the retryable error if and only if the time of that final
block (the local tip, not block-from) plus the minimum stake age minus the
selection interval exceeds now, and otherwise the non-fatal
modifier-not-yet-available result. -/
theorem getKernelStakeModifier_eq_spec (now : Int) (pindexFrom : BlockNode)
    (forward : List BlockNode) :
    GetKernelStakeModifier now pindexFrom forward = gksmSpec now pindexFrom forward := by
  have hS : 0 < GetStakeModifierSelectionInterval := by decide
  unfold GetKernelStakeModifier gksmSpec
  exact gksmLoop_eq_find (pindexFrom.nTime + GetStakeModifierSelectionInterval) now forward
    pindexFrom pindexFrom.nHeight pindexFrom.nTime (by omega)

/-- C3: when the hash of the previous transaction's block header is absent
from the block index, CheckProofOfStake leaves pBlockFrom null and
CheckStakeKernelHash dereferences it (pos.cpp line 274), modelled by the
nullDeref outcome, instead of failing with the DoS-100 rejection the spec
requires; evaluated at a concrete input whose block index lookup misses while
every other collaborator succeeds. -/
theorem checkProofOfStake_missing_index_crashes :
    CheckProofOfStake H1zero 0 0 true 10 0 (some 0) true (some ⟨999, 0, 1⟩)
      (fun _ => none) (some 0) 1000 500 true = .nullDeref := by
  decide

/-- C4: for every indexed block, the stake modifier checksum computed by
GetStakeModifierChecksum equals the most significant 32 bits of the 256-bit
hash of the serialization that omits the previous checksum (u32 little-endian)
exactly for a genesis block and appends the flags as u32 little-endian, the
proof hash as 32 bytes and the modifier as u64 little-endian. -/
theorem getStakeModifierChecksum_eq_spec (H : List Nat → Nat) (pprev : Option BlockNode)
    (pindex : BlockNode) :
    GetStakeModifierChecksum H pprev pindex = stakeModifierChecksumSpec H pprev pindex := by
  unfold GetStakeModifierChecksum stakeModifierChecksumSpec
  dsimp only
  generalize H _ = x
  rw [Nat.shiftRight_eq_div_pow]
  have hx : x % 2 ^ 256 < 2 ^ 256 := Nat.mod_lt _ (by norm_num)
  have hd : x % 2 ^ 256 / 2 ^ (256 - 32) < 2 ^ 32 := by
    apply Nat.div_lt_of_lt_mul
    calc x % 2 ^ 256 < 2 ^ 256 := hx
      _ = 2 ^ (256 - 32) * 2 ^ 32 := by norm_num
  rw [Nat.mod_eq_of_lt (lt_trans hd (by norm_num)), Nat.mod_eq_of_lt hd]

/-- C5: for a non-nil previous chain whose last generated stake modifier has
generation time in the same modifier interval bucket as the previous block
time (under integer division), ComputeNextStakeModifier returns the previous
modifier unchanged with the generated flag false. -/
theorem computeNextStakeModifier_same_interval (idx : Nat → Option BlockNode)
    (H2 : Nat → Nat → Nat) (prev : BlockNode) (rest : List BlockNode) (sm tM : Nat)
    (hlast : GetLastStakeModifier (prev :: rest) = some (sm, tM))
    (hbucket : prev.nTime / nModifierInterval ≤ tM / nModifierInterval) :
    ComputeNextStakeModifier idx H2 (prev :: rest) = some (sm, false) := by
  unfold ComputeNextStakeModifier
  dsimp only
  rw [hlast]
  simp [hbucket]

/-- C5 witness: the theorem instantiated at the single generator block w5blk,
whose own time trivially shares its modifier interval bucket. -/
theorem computeNextStakeModifier_same_interval_witness :
    ComputeNextStakeModifier (fun _ => none) (fun _ _ => 0) [w5blk] = some (42, false) :=
  computeNextStakeModifier_same_interval (fun _ => none) (fun _ _ => 0) w5blk [] 42 1000
    (by decide) (by decide)

/-- C6 counterexample: for the concrete candidate list with two entries
sharing timestamp 5, reversing and then sorting (the code path, modelled by
sortCandidatesByTimestamp) yields a different final ordering than a stable
sort by timestamp over the originally collected list, and the resulting
round-one selections differ as well (the candidates have timestamps past the
stop, so the first listed candidate wins). -/
theorem reverseSort_ne_stableSort_on_ties :
    sortCandidatesByTimestamp [(5, 1), (5, 2)] ≠ List.insertionSort candLe [(5, 1), (5, 2)] ∧
    SelectBlockFromCandidates idxC6 H2C6 [] 0 0 (sortCandidatesByTimestamp [(5, 1), (5, 2)]) ≠
      SelectBlockFromCandidates idxC6 H2C6 [] 0 0 (List.insertionSort candLe [(5, 1), (5, 2)]) := by
  refine ⟨by decide, by decide⟩

/-- C6 amended: when no two collected candidates share a timestamp, reversing
the collected ancestor list and then sorting it by ascending timestamp
produces the same final ordering as a stable sort by timestamp over the
originally collected list (and therefore the same 64-round block selection,
which is a function of that ordering); with shared timestamps the two
orderings, and hence possibly the selection, can differ. -/
theorem reverseSort_eq_stableSort_of_nodup_times (l : List (Nat × Nat))
    (hnd : (l.map Prod.fst).Nodup) :
    sortCandidatesByTimestamp l = List.insertionSort candLe l := by
  apply sortedPermNodupKeysEq
  · exact ((List.perm_insertionSort candLe l.reverse).trans l.reverse_perm).trans
      (List.perm_insertionSort candLe l).symm
  · exact List.sorted_insertionSort candLe l.reverse
  · exact List.sorted_insertionSort candLe l
  · exact (((List.perm_insertionSort candLe l.reverse).trans l.reverse_perm).map
      Prod.fst).nodup_iff.mpr hnd

/-- C6 amended witness: the amended theorem instantiated at a concrete
two-candidate list with distinct timestamps. -/
theorem reverseSort_eq_stableSort_of_nodup_times_witness :
    sortCandidatesByTimestamp [(1, 10), (2, 20)] = List.insertionSort candLe [(1, 10), (2, 20)] :=
  reverseSort_eq_stableSort_of_nodup_times [(1, 10), (2, 20)] (by decide)

/-- C7: in SelectBlockFromCandidates a proof-of-stake candidate uses the
selection hash of its proof hash and the previous modifier shifted right by 32
bits while a proof-of-work candidate uses the unshifted hash of its block hash
and the previous modifier; hence for a two-candidate round, both within the
stop time, neither previously selected, whose raw selection hashes both equal
an X of at least two to the 32, with one proof-of-stake and one proof-of-work
candidate in either order, the proof-of-stake candidate is adopted as
winner. -/
theorem selectBlock_pos_shift_wins (idx : Nat → Option BlockNode) (H2 : Nat → Nat → Nat)
    (selected : List Nat) (stop : Int) (mPrev X a b hp hw : Nat) (bp bw : BlockNode)
    (l : List (Nat × Nat))
    (hip : idx hp = some bp) (hiw : idx hw = some bw)
    (hposb : bp.isPoS = true) (hpowb : bw.isPoS = false)
    (ht1 : (bp.nTime : Int) ≤ stop) (ht2 : (bw.nTime : Int) ≤ stop)
    (hs1 : bp.blockHash ∉ selected) (hs2 : bw.blockHash ∉ selected)
    (hx1 : H2 bp.hashProofOfStake mPrev % 2 ^ 256 = X)
    (hx2 : H2 bw.blockHash mPrev % 2 ^ 256 = X)
    (hX : 2 ^ 32 ≤ X)
    (hl : l = [(a, hp), (b, hw)] ∨ l = [(b, hw), (a, hp)]) :
    SelectBlockFromCandidates idx H2 selected stop mPrev l = some bp := by
  have hX0 : 0 < X := lt_of_lt_of_le (by norm_num) hX
  have hdlt : X / 2 ^ 32 < X := Nat.div_lt_self hX0 (by norm_num)
  have hdnlt : ¬ X < X / 2 ^ 32 := not_lt.mpr (Nat.div_le_self X (2 ^ 32))
  have hnb1 : ¬ stop < (bp.nTime : Int) := not_lt.mpr ht1
  have hnb2 : ¬ stop < (bw.nTime : Int) := not_lt.mpr ht2
  norm_num at hx1 hx2 hdlt hdnlt
  rcases hl with h | h <;> subst h <;>
    simp [SelectBlockFromCandidates, sbcGo, hip, hiw, hposb, hpowb, hs1, hs2, hx1, hx2,
      hnb1, hnb2, hdlt, hdnlt]

/-- C7 witness: the theorem instantiated at the concrete candidates c7bp
(proof-of-stake) and c7bw (proof-of-work) with constant selection hash two to
the 32, listed proof-of-stake first. -/
theorem selectBlock_pos_shift_wins_witness :
    SelectBlockFromCandidates idxC7 H2C7 [] 0 0 [(0, 100), (0, 200)] = some c7bp :=
  selectBlock_pos_shift_wins idxC7 H2C7 [] 0 0 (2 ^ 32) 0 0 100 200 c7bp c7bw
    [(0, 100), (0, 200)] (by decide) (by decide) (by decide) (by decide) (by decide)
    (by decide) (by decide) (by decide) (by decide) (by decide) (by decide) (Or.inl rfl)

/-- C8 counterexample: at the concrete input with block-from time two to the
32 minus the minimum stake age, previous transaction time 0 and spend time
100, the mathematical min-age condition of the claim holds (block-from time
plus the minimum stake age exceeds the spend time), yet CheckStakeKernelHash
issues neither DoS rejection, because the 32-bit sum wraps to zero; it runs to
completion and accepts. -/
theorem checkStakeKernelHash_minage_wraps :
    CheckStakeKernelHash H1zero 0 0 c8From [c8Next] 0 1 0 0 100 ≠ .dosTimeViolation ∧
    CheckStakeKernelHash H1zero 0 0 c8From [c8Next] 0 1 0 0 100 ≠ .dosMinAge ∧
    100 < c8From.nTime + nStakeMinAge := by
  refine ⟨by decide, by decide, by decide⟩

/-- C8 amended: CheckStakeKernelHash rejects with a consensus-fatal DoS-100
error whenever the spend time is below the previous transaction time or below
the 32-bit wrapped sum of the block-from time and the minimum stake age; in
particular, for previous transaction time and block-from time 1000000 and
spend time one second short of the minimum age, it fails with the min-age
consensus rejection, for every kernel hash function. -/
theorem checkStakeKernelHash_rejects_on_violation
    (H1 : Nat → Nat → Nat → Nat → Nat → Nat → Nat) (now : Int) (nBits : Nat)
    (blockFrom : BlockNode) (forward : List BlockNode)
    (txPrevTime : Nat) (txPrevValue : Int) (nTxPrevOffset prevoutN nTimeTx : Nat)
    (hviol : nTimeTx < txPrevTime ∨ nTimeTx < (blockFrom.nTime + nStakeMinAge) % 2 ^ 32) :
    CheckStakeKernelHash H1 now nBits blockFrom forward txPrevTime txPrevValue
        nTxPrevOffset prevoutN nTimeTx = .dosTimeViolation ∨
    CheckStakeKernelHash H1 now nBits blockFrom forward txPrevTime txPrevValue
        nTxPrevOffset prevoutN nTimeTx = .dosMinAge := by
  unfold CheckStakeKernelHash
  by_cases h1 : nTimeTx < txPrevTime
  · left
    rw [if_pos h1]
  · right
    rw [if_neg h1, if_pos (hviol.resolve_left h1)]

/-- C8 witness: the amended theorem instantiated at the concrete min-age
scenario of the claim, with previous transaction time and block-from time
1000000 and spend time 1086399 (the hash function is quantified in the
theorem, so the rejection is issued before any hash is computed). -/
theorem checkStakeKernelHash_rejects_on_violation_witness :
    CheckStakeKernelHash H1zero 0 0 w8From [] 1000000 1 0 0 1086399 = .dosTimeViolation ∨
    CheckStakeKernelHash H1zero 0 0 w8From [] 1000000 1 0 0 1086399 = .dosMinAge :=
  checkStakeKernelHash_rejects_on_violation H1zero 0 0 w8From [] 1000000 1 0 0 1086399
    (Or.inr (by decide))

/-- C9: the checkpoint gate accepts exactly when the height is absent from the
hard-coded mainnet table or the checksum equals the table entry for that
height, and the function is the generic table check applied to the mainnet
table (the testnet table is bound by no operation). -/
theorem checkStakeModifierCheckpoints_iff (nHeight nStakeModifierChecksum : Nat) :
    (CheckStakeModifierCheckpoints nHeight nStakeModifierChecksum = true ↔
      mapStakeModifierCheckpoints.lookup nHeight = none ∨
        mapStakeModifierCheckpoints.lookup nHeight = some nStakeModifierChecksum) ∧
    CheckStakeModifierCheckpoints nHeight nStakeModifierChecksum =
      checkpointsCheckWith mapStakeModifierCheckpoints nHeight nStakeModifierChecksum := by
  constructor
  · unfold CheckStakeModifierCheckpoints checkpointsCheckWith
    cases hl : mapStakeModifierCheckpoints.lookup nHeight with
    | none => simp
    | some v =>
      dsimp only
      rw [beq_iff_eq]
      constructor
      · intro h
        exact Or.inr (by rw [h])
      · rintro (h | h)
        · exact absurd h (by simp)
        · exact (Option.some_inj.mp h).symm
  · rfl

/-- C10: the coinstake timestamp check accepts exactly when the block time and
the transaction time coincide, with no tolerance window. -/
theorem checkCoinStakeTimestamp_iff (nTimeBlock nTimeTx : Int) :
    CheckCoinStakeTimestamp nTimeBlock nTimeTx = true ↔ nTimeBlock = nTimeTx := by
  unfold CheckCoinStakeTimestamp
  exact beq_iff_eq
